import Mathlib

/-!
# Verification of the cue-pine manifest-driven install/uninstall engine

Shallow embedding of `cue-pine.py` (the latest source snapshot; `install.py`
is an earlier superseded variant of the same program).  Paths are opaque
strings; the filesystem is an association list from paths to entry kinds.
External effects (git clone, HTTP download, shell commands, executable
lookup) are modelled by explicit oracles.  Python exceptions that escape the
program are modelled with `Except.error`; `exit(n)` is modelled by a
dedicated outcome constructor.
-/

/-! ## Python string primitives -/

/-- Boolean list-prefix test; `listPre p l` models whether `p` is an initial
segment of `l` (used for `str.startswith` / `str.endswith` on `List Char`). -/
def listPre : List Char → List Char → Bool
  | [], _ => true
  | _ :: _, [] => false
  | a :: p, b :: q => a == b && listPre p q

/-- Models Python `s.startswith(t)`. -/
def pyStartsWith (s t : String) : Bool := listPre t.toList s.toList

/-- Models Python `s.endswith(t)`. -/
def pyEndsWith (s t : String) : Bool := listPre t.toList.reverse s.toList.reverse

/-- Models Python `s.rsplit(c, 1)[0]`: everything before the last occurrence
of `c`, or the whole string when `c` is absent. -/
def pyBeforeLastChar (c : Char) (s : String) : String :=
  if s.toList.contains c then
    (((s.toList.reverse.dropWhile (fun x => x ≠ c)).tail).reverse).asString
  else s

/-- Models Python `s.rpartition(c)[-1]`: everything after the last occurrence
of `c`, or the whole string when `c` is absent. -/
def pyAfterLastChar (c : Char) (s : String) : String :=
  ((s.toList.reverse.takeWhile (fun x => x ≠ c)).reverse).asString

/-- Core of Python `str.replace`: replaces every non-overlapping occurrence of
the non-empty pattern `pc :: pr` by `rep`, scanning left to right.  The fuel
argument is structural; `fuel = l.length` always suffices because every step
consumes at least one character of the scanned list. -/
def replaceCore (pc : Char) (pr rep : List Char) : Nat → List Char → List Char
  | 0, l => l
  | _ + 1, [] => []
  | fuel + 1, c :: rest =>
    if listPre (pc :: pr) (c :: rest) then
      rep ++ replaceCore pc pr rep fuel (rest.drop pr.length)
    else
      c :: replaceCore pc pr rep fuel rest

/-- Models Python `s.replace(pat, rep)` (all occurrences, left to right). -/
def pyReplace (s pat rep : String) : String :=
  match pat.toList with
  | [] => s
  | pc :: pr => (replaceCore pc pr rep.toList s.toList.length s.toList).asString

/-! ## Filesystem model -/

/-- Kind of on-disk entry at a path.  `symlink tgt` is a link whose target
exists (`os.path.exists` follows links and reports true); `dangling` is a
broken symbolic link, which `os.path.exists` reports as non-existent but
which still occupies the path. -/
inductive Entry where
  | file
  | dir
  | symlink (target : String)
  | dangling
deriving DecidableEq

/-- Flat filesystem: association list from paths to entries.  `os.makedirs`
parent creation is abstracted away since paths are opaque strings. -/
abbrev FS := List (String × Entry)

/-- First entry recorded for a path, if any. -/
def getEntry : FS → String → Option Entry
  | [], _ => none
  | (q, e) :: rest, p => if q = p then some e else getEntry rest p

/-- Removes every entry recorded for a path (models `os.remove` on a file or
symbolic link, which frees the path). -/
def removePath : FS → String → FS
  | [], _ => []
  | (q, e) :: rest, p => if q = p then removePath rest p else (q, e) :: removePath rest p

/-- Records entry `e` at path `p`, shadowing any previous entry. -/
def setEntry (fs : FS) (p : String) (e : Entry) : FS := (p, e) :: removePath fs p

/-- The absolute form of a local source: `os.getcwd()` plus the relative
path (cue-pine.py line 199). -/
def absSrc (cwd src : String) : String := s!"{cwd}/{src}"

/-- Models `os.path.exists`: true for files, directories and live symbolic
links; false for absent paths and dangling links. -/
def pathExists (fs : FS) (p : String) : Bool :=
  match getEntry fs p with
  | some Entry.file => true
  | some Entry.dir => true
  | some (Entry.symlink _) => true
  | _ => false

/-! ## Program state and arguments -/

/-- The command-line flags consumed by the reconciliation engine
(`args.uninstall`, `args.dry_run`, `args.strict_pre`,
`args.check_dependencies` in `cue-pine.py`). -/
structure Args where
  uninstall : Bool
  dry_run : Bool
  strict_pre : Bool
  check_dependencies : Bool
deriving DecidableEq

/-- Result of one `process(src, dest)` call: resulting filesystem, printed
lines, and the `done_something` return value. -/
structure ProcResult where
  fs : FS
  out : List String
  done : Bool
deriving DecidableEq

instance {ε α : Type} [DecidableEq ε] [DecidableEq α] : DecidableEq (Except ε α) := fun x y =>
  match x, y with
  | Except.ok a, Except.ok b =>
    if h : a = b then isTrue (by rw [h]) else isFalse (by intro hc; cases hc; exact h rfl)
  | Except.error a, Except.error b =>
    if h : a = b then isTrue (by rw [h]) else isFalse (by intro hc; cases hc; exact h rfl)
  | Except.ok _, Except.error _ => isFalse (by intro hc; cases hc)
  | Except.error _, Except.ok _ => isFalse (by intro hc; cases hc)

/-- Embedding of `process(src, dest)` (cue-pine.py lines 168-203).

`cloneOk` tells whether the external `git clone` subprocess succeeds (its
exit status is ignored by the code, so both values return normally);
`dlOk` tells whether `urllib.request.urlretrieve` succeeds (on failure it
raises, modelled as `Except.error`).  `cwd` is the manifest's working
directory (`os.getcwd()` after the chdir).  A broken symbolic link at `dest`
is reported non-existent and removed up front (lines 174-180), with
`FileNotFoundError` swallowed — note this cleanup is not guarded by
`args.dry_run`.  Removing an existing directory with `os.remove` raises
`IsADirectoryError` (line 186 on a git-cloned destination). -/
def process (args : Args) (cloneOk dlOk : Bool) (cwd : String) (fs0 : FS)
    (src dest : String) : Except String ProcResult :=
  let exists_ := pathExists fs0 dest
  let fs := if exists_ then fs0 else removePath fs0 dest
  if exists_ && args.uninstall then
    if args.dry_run then
      Except.ok ⟨fs, [s!"        {dest}"], true⟩
    else
      match getEntry fs dest with
      | some Entry.dir => Except.error s!"IsADirectoryError: {dest}"
      | _ => Except.ok ⟨removePath fs dest, [s!"        {dest}"], true⟩
  else if !exists_ && !args.uninstall then
    if pyEndsWith src ".git" then
      let fs1 := if args.dry_run || !cloneOk then fs else setEntry fs dest Entry.dir
      Except.ok ⟨fs1, [s!"        {src} => {dest}"], true⟩
    else if pyStartsWith src "http" then
      if args.dry_run then
        Except.ok ⟨fs, [s!"        {src} => {dest}"], true⟩
      else if dlOk then
        Except.ok ⟨setEntry fs dest Entry.file, [s!"        {src} => {dest}"], true⟩
      else
        Except.error s!"URLError: {src}"
    else
      if !pathExists fs src then
        Except.ok ⟨fs, [s!"        Error: file \"{src}\" does not exist"], false⟩
      else
        let asrc := absSrc cwd src
        if args.dry_run then
          Except.ok ⟨fs, [s!"        {asrc} => {dest}"], true⟩
        else
          Except.ok ⟨setEntry fs dest (Entry.symlink asrc), [s!"        {asrc} => {dest}"], true⟩
  else
    Except.ok ⟨fs, [], false⟩

/-! ## Target Resolver, installation groups, Reconciler -/

/-- Embedding of the destination-filename computation for a `files` entry
(cue-pine.py lines 243-249): if `strip_ext` is set, `file.rsplit('.', 1)[0]`;
otherwise, if the specifier contains a separator, `file.rpartition('/')[-1]`;
otherwise the specifier unchanged.  The two transformations are alternative
branches of an if/elif chain. -/
def resolve_target (strip_ext : Bool) (file : String) : String :=
  if strip_ext then pyBeforeLastChar '.' file
  else if file.toList.contains '/' then pyAfterLastChar '/' file
  else file

/-- One entry of the manifest's `installation` mapping: destination directory
(with possible `$HOME` placeholder), the `strip_ext` flag (absent = false),
and the `files` / `renamed_files` lists (absent = empty, matching
`content.get(..., [])`). -/
structure InstallGroup where
  dir : String
  strip_ext : Bool
  files : List String
  renamed_files : List (String × String)
deriving DecidableEq

/-- A parsed manifest.  `installation` keeps insertion order as an association
list.  `pre`/`post`/`dependencies` model absent keys as empty lists (an absent
key and an empty list differ only in whether a section header is printed,
which no claim depends on). -/
structure Config where
  dependencies : List String
  pre : List String
  post : List String
  installation : List (String × InstallGroup)
deriving DecidableEq

/-- The group's destination directory after `$HOME` substitution
(cue-pine.py line 235). -/
def dirOf (home : String) (g : InstallGroup) : String := pyReplace g.dir "$HOME" home

/-- Destination path of a `files` item (cue-pine.py line 251). -/
def fileDest (home : String) (g : InstallGroup) (f : String) : String :=
  s!"{dirOf home g}/{resolve_target g.strip_ext f}"

/-- Destination path of a `renamed_files` item (cue-pine.py line 254). -/
def renamedDest (home : String) (g : InstallGroup) (m : String × String) : String :=
  s!"{dirOf home g}/{m.2}"

/-- The `files` loop of a group (cue-pine.py lines 243-251), folding `process`
over the list while accumulating output and the `done_something` flag. -/
def processFiles (args : Args) (cloneOk dlOk : Bool) (cwd home : String) (g : InstallGroup) :
    List String → ProcResult → Except String ProcResult
  | [], st => Except.ok st
  | f :: rest, st =>
    match process args cloneOk dlOk cwd st.fs f (fileDest home g f) with
    | Except.error e => Except.error e
    | Except.ok r => processFiles args cloneOk dlOk cwd home g rest ⟨r.fs, st.out ++ r.out, st.done || r.done⟩

/-- The `renamed_files` loop of a group (cue-pine.py lines 253-254): each
mapping installs `src` at `dir/dest`, with no stripping or flattening. -/
def processRenamed (args : Args) (cloneOk dlOk : Bool) (cwd home : String) (g : InstallGroup) :
    List (String × String) → ProcResult → Except String ProcResult
  | [], st => Except.ok st
  | m :: rest, st =>
    match process args cloneOk dlOk cwd st.fs m.1 (renamedDest home g m) with
    | Except.error e => Except.error e
    | Except.ok r => processRenamed args cloneOk dlOk cwd home g rest ⟨r.fs, st.out ++ r.out, st.done || r.done⟩

/-- One iteration of the group loop (cue-pine.py lines 234-257): print the
group header, create the destination directory when installing for real and
it does not yet exist, process `files` then `renamed_files`, and report
"Nothing done" when no item took an action. -/
def processGroup (args : Args) (cloneOk dlOk : Bool) (cwd home : String) (fs : FS)
    (name : String) (g : InstallGroup) : Except String (FS × List String) :=
  let dir := dirOf home g
  let fsg := if !(pathExists fs dir || args.uninstall || args.dry_run)
             then setEntry fs dir Entry.dir else fs
  match processFiles args cloneOk dlOk cwd home g g.files ⟨fsg, [], false⟩ with
  | Except.error e => Except.error e
  | Except.ok r1 =>
    match processRenamed args cloneOk dlOk cwd home g g.renamed_files r1 with
    | Except.error e => Except.error e
    | Except.ok r2 =>
      Except.ok (r2.fs, s!"    {name}:" :: r2.out ++ (if r2.done then [] else ["        Nothing done"]))

/-- The fold of `processGroup` over the `installation` mapping in insertion
order (cue-pine.py line 234). -/
def processGroups (args : Args) (cloneOk dlOk : Bool) (cwd home : String) (fs : FS) :
    List (String × InstallGroup) → Except String (FS × List String)
  | [] => Except.ok (fs, [])
  | (n, g) :: rest =>
    match processGroup args cloneOk dlOk cwd home fs n g with
    | Except.error e => Except.error e
    | Except.ok (fs1, out1) =>
      match processGroups args cloneOk dlOk cwd home fs1 rest with
      | Except.error e => Except.error e
      | Except.ok (fs2, out2) => Except.ok (fs2, out1 ++ out2)

/-- Embedding of `process_installation(config)` (cue-pine.py lines 228-259):
prints the mode header, processes every group, then a blank line. -/
def process_installation (args : Args) (cloneOk dlOk : Bool) (cwd home : String)
    (fs : FS) (cfg : Config) : Except String (FS × List String) :=
  match processGroups args cloneOk dlOk cwd home fs cfg.installation with
  | Except.error e => Except.error e
  | Except.ok (fs1, out) =>
    Except.ok (fs1, (if args.uninstall then "Uninstallation:" else "Installation:") :: out ++ [""])

/-! ## Dependency Checker, Hook Runner, Manifest Orchestrator -/

/-- Result of `check_dependencies`: printed lines and the returned
`all_deps_found` boolean. -/
structure DepResult where
  out : List String
  ok : Bool
deriving DecidableEq

/-- Embedding of `check_dependencies(config)` (cue-pine.py lines 140-165).
`which` is the `shutil.which` oracle (executable resolvability).  When the
dependency list is empty (or the key is absent) the function returns `True`
with no output.  Note the function itself never exits: it only prints
"Not all dependencies met. Aborting." and returns the flag. -/
def check_dependencies (args : Args) (which : String → Bool) (cfg : Config) : DepResult :=
  if cfg.dependencies.isEmpty then ⟨[], true⟩
  else
    let lines := cfg.dependencies.map
      (fun d => if which d then s!"    {d} OK" else s!"    {d} not found")
    let allFound := cfg.dependencies.all which
    let extra := if !(allFound || args.check_dependencies)
                 then ["Not all dependencies met. Aborting."] else []
    ⟨"Dependencies check:" :: lines ++ [""] ++ extra, allFound⟩

/-- The command loop of `alt_process` (cue-pine.py lines 216-224).  `shell`
is the `subprocess.call` oracle giving each command's exit code; `i` is the
printed script index.  Under dry-run the command is not executed.  A non-zero
exit of a `pre` command under `--strict-pre` prints an error and calls
`exit(1)`, modelled as `Except.error` carrying the output so far. -/
def runHookCmds (args : Args) (shell : String → Nat) (type_ : String) :
    Nat → List String → Except (List String) (List String)
  | _, [] => Except.ok []
  | i, c :: rest =>
    let line := s!"    running {type_} script #{i}"
    if args.dry_run then
      match runHookCmds args shell type_ (i + 1) rest with
      | Except.ok out => Except.ok (line :: out)
      | Except.error out => Except.error (line :: out)
    else
      let e := shell c
      if args.strict_pre && e != 0 && type_ == "pre" then
        Except.error [line, s!"Error: exit code {e} was produced by the command {c}"]
      else
        match runHookCmds args shell type_ (i + 1) rest with
        | Except.ok out => Except.ok (line :: out)
        | Except.error out => Except.error (line :: out)

/-- Embedding of `alt_process(type_, config)` (cue-pine.py lines 206-225):
skipped entirely when the key is absent or when uninstalling; `Except.error`
models the `exit(1)` taken on a strict `pre` failure. -/
def alt_process (args : Args) (shell : String → Nat) (type_ : String) (cmds : List String) :
    Except (List String) (List String) :=
  if cmds.isEmpty || args.uninstall then Except.ok []
  else
    match runHookCmds args shell type_ 0 cmds with
    | Except.ok out => Except.ok (s!"{type_}-scripts:" :: out ++ [""])
    | Except.error out => Except.error (s!"{type_}-scripts:" :: out)

/-- Result of processing one manifest, or of a whole run: normal completion,
an explicit `exit(code)`, or an uncaught Python exception (which terminates
the interpreter with a non-zero status). -/
inductive Outcome where
  | finished (fs : FS) (out : List String)
  | exited (code : Nat) (fs : FS) (out : List String)
  | crashed (msg : String) (fs : FS) (out : List String)
deriving DecidableEq

/-- Embedding of `process_config_file(file_path, cwd)` (cue-pine.py lines
262-295).  Manifest parsing and the terminal-width header padding are
abstracted: the header is a line naming the manifest's directory.  The
dependency check runs only when installing; the pre/installation/post phases
run only when it succeeded and `--check-dependencies` was not given. -/
def process_config_file (args : Args) (which : String → Bool) (shell : String → Nat)
    (cloneOk dlOk : Bool) (home : String) (fs : FS) (cwd : String) (cfg : Config) : Outcome :=
  let dep := if args.uninstall then DepResult.mk [] true else check_dependencies args which cfg
  let out := s!"===== {cwd} =====" :: dep.out
  if dep.ok && !args.check_dependencies then
    match alt_process args shell "pre" cfg.pre with
    | Except.error hout => Outcome.exited 1 fs (out ++ hout)
    | Except.ok preOut =>
      match process_installation args cloneOk dlOk cwd home fs cfg with
      | Except.error msg => Outcome.crashed msg fs (out ++ preOut)
      | Except.ok (fs1, instOut) =>
        match alt_process args shell "post" cfg.post with
        | Except.error hout => Outcome.exited 1 fs1 (out ++ preOut ++ instOut ++ hout)
        | Except.ok postOut => Outcome.finished fs1 (out ++ preOut ++ instOut ++ postOut)
  else Outcome.finished fs out

/-- Prefixes a finished-or-stopped outcome with earlier output. -/
def prependOut (o1 : List String) : Outcome → Outcome
  | Outcome.finished fs out => Outcome.finished fs (o1 ++ out)
  | Outcome.exited c fs out => Outcome.exited c fs (o1 ++ out)
  | Outcome.crashed m fs out => Outcome.crashed m fs (o1 ++ out)

/-- Embedding of the top-level walk loop (cue-pine.py lines 299-310): the
discovered manifests, in walk order, each with its directory, are processed
in sequence; an `exit` or an uncaught exception in one manifest terminates
the whole program. -/
def runManifests (args : Args) (which : String → Bool) (shell : String → Nat)
    (cloneOk dlOk : Bool) (home : String) (fs : FS) :
    List (String × Config) → Outcome
  | [] => Outcome.finished fs []
  | (cwd, cfg) :: rest =>
    match process_config_file args which shell cloneOk dlOk home fs cwd cfg with
    | Outcome.finished fs1 out1 =>
      prependOut out1 (runManifests args which shell cloneOk dlOk home fs1 rest)
    | o => o

/-- Process exit status of a whole run: 0 on normal completion, the `exit`
code, or 1 for an uncaught exception. -/
def exitCode : Outcome → Nat
  | Outcome.finished _ _ => 0
  | Outcome.exited c _ _ => c
  | Outcome.crashed _ _ _ => 1

/-! ## Definitions taken from the specification's words

`resolve_target_claim` follows the spec's §4.1 wording, to be compared with
the source's `resolve_target`.  The remaining definitions in this section
model behavior the spec attributes to the repository's latest source
snapshot but that is absent from the snapshot under verification. -/

/-- Stripping restricted to the final path segment: removes everything from
(and including) the last `.` of the substring after the last `/`, leaving
earlier segments untouched. -/
def stripExtFinalSegment (s : String) : String :=
  let tail := pyAfterLastChar '/' s
  let head := (s.toList.take (s.toList.length - tail.toList.length)).asString
  let stripped := pyBeforeLastChar '.' tail
  s!"{head}{stripped}"

/-- Target Resolver following the specification's words (spec §4.1), for
comparison with the source's `resolve_target`: first strip the extension of
the final path segment when `strip_ext` is set, then flatten on the last
separator if the possibly-stripped specifier still contains one. -/
def resolve_target_claim (strip_ext : Bool) (file : String) : String :=
  let stripped := if strip_ext then stripExtFinalSegment file else file
  if stripped.toList.contains '/' then pyAfterLastChar '/' stripped
  else stripped

/-- Modelled from the spec: the per-group `condition` key, which is absent
from the source snapshot under `src/` (spec §3, §4.3 step 1, and the §9 note
declaring the latest snapshot authoritative).  An installation group
optionally carries a shell predicate. -/
structure CondInstallGroup extends InstallGroup where
  condition : Option String
deriving DecidableEq

/-- Modelled from the spec: group processing of the latest snapshot, whose
`condition` handling is absent from the source under `src/`: "If `condition`
is present, run it as a shell predicate; non-zero exit skips the entire
group (no targets touched, reported distinctly from nothing to do)".  The
skip report line is distinct from the "Nothing done" line; when the
predicate passes or is absent the group is processed as in the source. -/
def processGroupCond (args : Args) (shell : String → Nat) (cloneOk dlOk : Bool)
    (cwd home : String) (fs : FS) (name : String) (g : CondInstallGroup) :
    Except String (FS × List String) :=
  match g.condition with
  | some c =>
    if shell c ≠ 0 then
      Except.ok (fs, [s!"    {name}:", "        Skipped (condition failed)"])
    else
      processGroup args cloneOk dlOk cwd home fs name g.toInstallGroup
  | none => processGroup args cloneOk dlOk cwd home fs name g.toInstallGroup

/-- Drops a trailing occurrence of `suf` (intended to be used when `s` is
known to end with `suf`). -/
def dropSuffix (s suf : String) : String :=
  (s.toList.take (s.toList.length - suf.toList.length)).asString

/-- Modelled from the spec: the destination adjustment for git clones of the
latest snapshot, absent from the source under `src/` (spec §4.2 step 1 and
the §9 note): "If both `source` and `destination` carry the suffix, strip it
from `destination` before cloning". -/
def clone_target (src dest : String) : String :=
  if pyEndsWith src ".git" && pyEndsWith dest ".git" then dropSuffix dest ".git"
  else dest

/-- Modelled from the spec: the Source Fetcher of the latest snapshot, which
behaves as the source's `process` except that for git sources the clone
destination has a trailing `.git` suffix stripped when both source and
destination carry it. -/
def fetch_spec (args : Args) (cloneOk dlOk : Bool) (cwd : String) (fs : FS)
    (src dest : String) : Except String ProcResult :=
  if pyEndsWith src ".git" then
    process args cloneOk dlOk cwd fs src (clone_target src dest)
  else
    process args cloneOk dlOk cwd fs src dest

/-- Modelled from the spec: the uninstall transition of the latest snapshot,
whose recursive directory removal is absent from the source under `src/`
(spec §4.3: "remove destination (directory removal must be recursive if
destination is a directory, otherwise a single file/link removal)").
Removing a directory also removes every entry strictly below it. -/
def remove_dest_spec (fs : FS) (dest : String) : FS :=
  match getEntry fs dest with
  | some Entry.dir =>
    (removePath fs dest).filter (fun e => !pyStartsWith e.1 s!"{dest}/")
  | _ => removePath fs dest

example : pyBeforeLastChar '.' "archive.tar.gz" = "archive.tar" := by decide
example : pyBeforeLastChar '.' "noext" = "noext" := by decide
example : pyAfterLastChar '/' "dir/sub/file.txt" = "file.txt" := by decide
example : pyAfterLastChar '/' "plain" = "plain" := by decide
example : pyReplace "$HOME/.config/x" "$HOME" "/home/u" = "/home/u/.config/x" := by decide
example : pyEndsWith "u/repo.git" ".git" = true := by decide
example : pyStartsWith "https://x" "http" = true := by decide


/-! ## Derived notions used by the statements -/

/-- Relation between the filesystem before and after a dry run: every path
either keeps its entry or had a dangling link that was cleaned away (the
only mutation the code performs under `--dry-run`). -/
def dryFrame (fs fs1 : FS) : Prop :=
  ∀ p, getEntry fs1 p = getEntry fs p ∨
    (getEntry fs p = some Entry.dangling ∧ getEntry fs1 p = none)

/-- A source that the Source Fetcher can install against filesystem `fs`:
remote (git or HTTP) or an existing local path. -/
def srcOk (fs : FS) (s : String) : Bool :=
  pyEndsWith s ".git" || pyStartsWith s "http" || pathExists fs s

/-- The per-group output of an installation run in which no item takes any
action: each group prints its header and then "Nothing done". -/
def idleGroupsOut : List (String × InstallGroup) → List String
  | [] => []
  | (n, _) :: rest => s!"    {n}:" :: "        Nothing done" :: idleGroupsOut rest

/-- Existence-monotonicity between two filesystems: every path that exists
in the first still exists in the second. -/
def fsMono (a b : FS) : Prop := ∀ q, pathExists a q = true → pathExists b q = true

/-! ## Shared helper lemmas -/

theorem dropWhile_append_of_forall {α : Type} {p : α → Bool} {l₁ l₂ : List α}
    (h : ∀ x ∈ l₁, p x = true) :
    List.dropWhile p (l₁ ++ l₂) = List.dropWhile p l₂ := by
  induction l₁ with
  | nil => simp
  | cons a t ih =>
    simp only [List.cons_append, List.dropWhile_cons, h a (by simp)]
    exact ih (fun x hx => h x (by simp [hx]))

theorem takeWhile_append_of_forall {α : Type} {p : α → Bool} {l₁ l₂ : List α} {a : α}
    (h : ∀ x ∈ l₁, p x = true) (ha : p a = false) :
    List.takeWhile p (l₁ ++ a :: l₂) = l₁ := by
  induction l₁ with
  | nil => simp [List.takeWhile_cons, ha]
  | cons b t ih =>
    simp only [List.cons_append, List.takeWhile_cons, h b (by simp)]
    simp [ih (fun x hx => h x (by simp [hx]))]

theorem pyBeforeLastChar_append (u v : List Char) (h : '.' ∉ v) :
    pyBeforeLastChar '.' ⟨u ++ '.' :: v⟩ = ⟨u⟩ := by
  have htl : (String.mk (u ++ '.' :: v)).toList = u ++ '.' :: v := rfl
  have hc : ((u ++ '.' :: v).contains '.') = true := by
    simp [List.contains]
  unfold pyBeforeLastChar
  rw [htl, if_pos hc]
  have hrev : (u ++ '.' :: v).reverse = v.reverse ++ '.' :: u.reverse := by
    simp
  rw [hrev, dropWhile_append_of_forall (p := fun x => x ≠ '.')
    (fun x hx => by
      simp only [decide_eq_true_eq, ne_eq]
      intro hxe; exact h (by simpa [hxe] using List.mem_reverse.mp hx))]
  simp [List.dropWhile_cons, List.asString]

theorem pyBeforeLastChar_of_not_mem (u : List Char) (h : '.' ∉ u) :
    pyBeforeLastChar '.' ⟨u⟩ = ⟨u⟩ := by
  unfold pyBeforeLastChar
  rw [show (String.mk u).toList = u from rfl, if_neg (by simp [List.contains]; exact h)]

theorem pyAfterLastChar_append (u w : List Char) (h : '/' ∉ w) :
    pyAfterLastChar '/' ⟨u ++ '/' :: w⟩ = ⟨w⟩ := by
  unfold pyAfterLastChar
  rw [show (String.mk (u ++ '/' :: w)).toList = u ++ '/' :: w from rfl]
  have hrev : (u ++ '/' :: w).reverse = w.reverse ++ '/' :: u.reverse := by
    simp
  rw [hrev, takeWhile_append_of_forall
    (fun x hx => by
      simp only [decide_eq_true_eq, ne_eq]
      intro hxe; exact h (by simpa [hxe] using List.mem_reverse.mp hx))
    (by simp)]
  simp [List.asString]

/-! ## C1 — Target Resolver: extension stripping vs path flattening -/

/-- C1 counterexample: the claim says stripping is applied to the final path
segment only and is then followed by flattening.  On `"dir/file.txt"` with
`strip_ext` set, the source's resolver yields `"dir/file"` (the spec-worded
resolver would yield `"file"`), so the two steps are not composed; and on
`"a.b/c"` the source's resolver yields `"a"`, stripping at a `.` of an
earlier segment, which the claim rules out. -/
theorem c1_counterexample :
    resolve_target true "dir/file.txt" = "dir/file" ∧
    resolve_target_claim true "dir/file.txt" = "file" ∧
    resolve_target true "dir/file.txt" ≠ resolve_target_claim true "dir/file.txt" ∧
    resolve_target true "a.b/c" = "a" ∧
    resolve_target_claim true "a.b/c" = "c" := by
  refine ⟨by decide, by decide, by decide, by decide, by decide⟩

/-- C1 amended: when `strip_ext` is set the resolver removes everything
from (and including) the last `.` anywhere in the specifier — possibly in an
earlier segment — and applies no flattening even when separators remain;
flattening on the last separator happens only when `strip_ext` is unset.
The two transformations are mutually exclusive branches, not composed
steps. -/
theorem c1_strip_and_flatten_are_exclusive (u v w : List Char)
    (hv : '.' ∉ v) (hw : '/' ∉ w) :
    resolve_target true ⟨u ++ '.' :: v⟩ = ⟨u⟩ ∧
    ('.' ∉ u → resolve_target true ⟨u⟩ = ⟨u⟩) ∧
    ('/' ∈ u → (resolve_target true ⟨u ++ '.' :: v⟩).toList.contains '/' = true) ∧
    resolve_target false ⟨u ++ '/' :: w⟩ = ⟨w⟩ := by
  refine ⟨?_, ?_, ?_, ?_⟩
  · simpa [resolve_target] using pyBeforeLastChar_append u v hv
  · intro hu
    simpa [resolve_target] using pyBeforeLastChar_of_not_mem u hu
  · intro hm
    have h1 : resolve_target true ⟨u ++ '.' :: v⟩ = ⟨u⟩ := by
      simpa [resolve_target] using pyBeforeLastChar_append u v hv
    rw [h1]
    simpa [List.contains, String.toList] using hm
  · have hc : ((u ++ '/' :: w).contains '/') = true := by
      simp [List.contains]
    simp only [resolve_target, if_neg (by simp : ¬(false = true))]
    rw [show (String.mk (u ++ '/' :: w)).toList = u ++ '/' :: w from rfl, if_pos hc]
    exact pyAfterLastChar_append u w hw

/-- C1 witness: the amended theorem instantiated at `"dir/file"`, `"txt"`
and `"file.txt"`. -/
theorem c1_strip_and_flatten_are_exclusive_witness :
    ('.' ∉ ("txt".toList) ∧ '/' ∉ ("file.txt".toList)) ∧
    (resolve_target true ⟨"dir/file".toList ++ '.' :: "txt".toList⟩ = ⟨"dir/file".toList⟩ ∧
     ('.' ∉ ("dir/file".toList) → resolve_target true ⟨"dir/file".toList⟩ = ⟨"dir/file".toList⟩) ∧
     ('/' ∈ ("dir/file".toList) →
       (resolve_target true ⟨"dir/file".toList ++ '.' :: "txt".toList⟩).toList.contains '/' = true) ∧
     resolve_target false ⟨"dir/file".toList ++ '/' :: "file.txt".toList⟩ = ⟨"file.txt".toList⟩) :=
  ⟨⟨by decide, by decide⟩,
   c1_strip_and_flatten_are_exclusive "dir/file".toList "txt".toList "file.txt".toList
     (by decide) (by decide)⟩

/-! ## C4 — uninstall removal of a directory destination -/

/-- C4: the claim (and spec §4.3) requires recursive removal of a directory
destination in uninstall mode.  The source calls `os.remove(dest)` (line
186), which cannot remove a directory: on a destination left by a previous
git clone the run aborts with `IsADirectoryError` instead of removing it.
This theorem evaluates the embedded code at such a failing input; a plain
file at the destination is removed fine, confirming the non-directory half
of the claim. -/
theorem c4_uninstall_directory_crashes :
    process ⟨true, false, false, false⟩ true true "/c"
        [("D/repo", Entry.dir)] "https://h/repo.git" "D/repo"
      = Except.error "IsADirectoryError: D/repo" ∧
    process ⟨true, false, false, false⟩ true true "/c"
        [("D/f", Entry.file)] "f" "D/f"
      = Except.ok ⟨[], ["        D/f"], true⟩ ∧
    remove_dest_spec [("D/repo", Entry.dir), ("D/repo/x", Entry.file)] "D/repo" = [] := by
  refine ⟨by decide, by decide, by decide⟩

/-! ## C10 — fetch outcome reporting for git and HTTP sources -/

/-- C10 counterexample: for an HTTP source with an absent destination whose
download fails, `urlretrieve` raises and the fetch does not return at all —
it does not "return true regardless of whether the download succeeded". -/
theorem c10_counterexample :
    process ⟨false, false, false, false⟩ true false "/c" [] "http://h/f" "D/f"
      = Except.error "URLError: http://h/f" := by
  decide

/-- C10 amended: for a git source with an absent destination the fetch
returns `true` whether or not the clone subprocess succeeded (its exit
status is ignored; on failure nothing is created but the item still counts
as done), and for an HTTP source it returns `true` when the download
succeeds; a failing download instead raises an exception that aborts
processing. -/
theorem c10_remote_fetch_reports_done (args : Args) (cloneOk dlOk : Bool)
    (cwd : String) (fs : FS) (src dest : String)
    (hU : args.uninstall = false) (hD : args.dry_run = false)
    (hE : pathExists fs dest = false) :
    (pyEndsWith src ".git" = true →
      process args cloneOk dlOk cwd fs src dest
        = Except.ok ⟨if cloneOk then setEntry (removePath fs dest) dest Entry.dir
                     else removePath fs dest,
                     [s!"        {src} => {dest}"], true⟩) ∧
    (pyEndsWith src ".git" = false → pyStartsWith src "http" = true →
      (dlOk = true →
        process args cloneOk dlOk cwd fs src dest
          = Except.ok ⟨setEntry (removePath fs dest) dest Entry.file,
                       [s!"        {src} => {dest}"], true⟩) ∧
      (dlOk = false →
        process args cloneOk dlOk cwd fs src dest = Except.error s!"URLError: {src}")) := by
  constructor
  · intro hgit
    cases cloneOk <;> simp [process, hU, hD, hE, hgit]
  · intro hgit hhttp
    constructor
    · intro hdl
      simp [process, hU, hD, hE, hgit, hhttp, hdl]
    · intro hdl
      simp [process, hU, hD, hE, hgit, hhttp, hdl]

/-- C10 witness: the amended theorem instantiated at a concrete failed git
clone and a concrete successful download. -/
theorem c10_remote_fetch_reports_done_witness :
    (pathExists [] "D/r.git" = false) ∧
    (pyEndsWith "u/r.git" ".git" = true →
      process ⟨false, false, false, false⟩ false true "/c" [] "u/r.git" "D/r.git"
        = Except.ok ⟨if false then setEntry (removePath [] "D/r.git") "D/r.git" Entry.dir
                     else removePath [] "D/r.git",
                     [s!"        u/r.git => D/r.git"], true⟩) ∧
    (pyEndsWith "u/r.git" ".git" = false → pyStartsWith "u/r.git" "http" = true →
      (true = true →
        process ⟨false, false, false, false⟩ false true "/c" [] "u/r.git" "D/r.git"
          = Except.ok ⟨setEntry (removePath [] "D/r.git") "D/r.git" Entry.file,
                       [s!"        u/r.git => D/r.git"], true⟩) ∧
      (true = false →
        process ⟨false, false, false, false⟩ false true "/c" [] "u/r.git" "D/r.git"
          = Except.error s!"URLError: u/r.git")) :=
  ⟨by decide,
   (c10_remote_fetch_reports_done ⟨false, false, false, false⟩ false true "/c" []
      "u/r.git" "D/r.git" rfl rfl (by decide)).1,
   (c10_remote_fetch_reports_done ⟨false, false, false, false⟩ false true "/c" []
      "u/r.git" "D/r.git" rfl rfl (by decide)).2⟩

/-! ## Association-list filesystem lemmas -/

theorem getEntry_removePath_self (fs : FS) (p : String) :
    getEntry (removePath fs p) p = none := by
  induction fs with
  | nil => rfl
  | cons hd tl ih =>
    obtain ⟨q, e⟩ := hd
    by_cases h : q = p <;> simp [removePath, getEntry, h, ih]

theorem getEntry_removePath_ne (fs : FS) {p q : String} (h : q ≠ p) :
    getEntry (removePath fs p) q = getEntry fs q := by
  induction fs with
  | nil => rfl
  | cons hd tl ih =>
    obtain ⟨r, e⟩ := hd
    by_cases hr : r = p
    · subst hr
      have h1 : removePath ((r, e) :: tl) r = removePath tl r := by
        simp [removePath]
      rw [h1, ih]
      simp only [getEntry]
      rw [if_neg (fun hc => h hc.symm)]
    · simp only [removePath, if_neg hr, getEntry]
      by_cases hq : r = q
      · rw [if_pos hq, if_pos hq]
      · rw [if_neg hq, if_neg hq, ih]

theorem getEntry_setEntry_self (fs : FS) (p : String) (e : Entry) :
    getEntry (setEntry fs p e) p = some e := by
  simp [setEntry, getEntry]

theorem getEntry_setEntry_ne (fs : FS) {p q : String} (e : Entry) (h : q ≠ p) :
    getEntry (setEntry fs p e) q = getEntry fs q := by
  simp only [setEntry, getEntry]
  rw [if_neg (fun hc => h hc.symm), getEntry_removePath_ne fs h]

theorem pathExists_removePath (fs : FS) {p : String} (hp : pathExists fs p = false)
    (q : String) : pathExists (removePath fs p) q = pathExists fs q := by
  by_cases h : q = p
  · subst h
    rw [hp]
    simp [pathExists, getEntry_removePath_self]
  · simp [pathExists, getEntry_removePath_ne fs h]

theorem pathExists_setEntry_self_live (fs : FS) (p : String) {e : Entry}
    (he : e ≠ Entry.dangling) : pathExists (setEntry fs p e) p = true := by
  cases e with
  | dangling => exact absurd rfl he
  | file => simp [pathExists, getEntry_setEntry_self]
  | dir => simp [pathExists, getEntry_setEntry_self]
  | symlink t => simp [pathExists, getEntry_setEntry_self]

theorem pathExists_setEntry_ne (fs : FS) {p q : String} (e : Entry) (h : q ≠ p) :
    pathExists (setEntry fs p e) q = pathExists fs q := by
  simp [pathExists, getEntry_setEntry_ne fs e h]

/-! ## C9 — local sources: missing-source error and symlink creation -/

theorem process_local_missing (args : Args) (cloneOk dlOk : Bool) (cwd : String)
    (fs : FS) (src dest : String)
    (hU : args.uninstall = false)
    (hgit : pyEndsWith src ".git" = false) (hhttp : pyStartsWith src "http" = false)
    (hE : pathExists fs dest = false) (hS : pathExists fs src = false) :
    process args cloneOk dlOk cwd fs src dest
      = Except.ok ⟨removePath fs dest,
                   [s!"        Error: file \"{src}\" does not exist"], false⟩ := by
  have hS1 : pathExists (removePath fs dest) src = false := by
    rw [pathExists_removePath fs hE src]; exact hS
  simp [process, hU, hgit, hhttp, hE, hS1]

theorem process_local_present (args : Args) (cloneOk dlOk : Bool) (cwd : String)
    (fs : FS) (src dest : String)
    (hU : args.uninstall = false) (hD : args.dry_run = false)
    (hgit : pyEndsWith src ".git" = false) (hhttp : pyStartsWith src "http" = false)
    (hE : pathExists fs dest = false) (hS : pathExists fs src = true) :
    process args cloneOk dlOk cwd fs src dest
      = Except.ok ⟨setEntry (removePath fs dest) dest (Entry.symlink (absSrc cwd src)),
                   [s!"        {absSrc cwd src} => {dest}"], true⟩ := by
  have hS1 : pathExists (removePath fs dest) src = true := by
    rw [pathExists_removePath fs hE src]; exact hS
  simp [process, hU, hD, hgit, hhttp, hE, hS1]

/-- C9: for an install item with a local source (neither the `.git` suffix
nor the `http` prefix) and an absent destination: a missing source produces
an error line naming the source and the fetch returns `false` with no entry
created at the destination, and the group loop continues with the remaining
items; an existing source produces a symbolic link at the destination whose
target is the absolute (cwd-prefixed) form of the source. -/
theorem c9_local_source_fetch (args : Args) (cloneOk dlOk : Bool) (cwd : String)
    (fs : FS) (src dest : String)
    (hU : args.uninstall = false) (hD : args.dry_run = false)
    (hgit : pyEndsWith src ".git" = false) (hhttp : pyStartsWith src "http" = false)
    (hE : pathExists fs dest = false) :
    (pathExists fs src = false →
      process args cloneOk dlOk cwd fs src dest
        = Except.ok ⟨removePath fs dest,
                     [s!"        Error: file \"{src}\" does not exist"], false⟩ ∧
      getEntry (removePath fs dest) dest = none) ∧
    (pathExists fs src = true →
      process args cloneOk dlOk cwd fs src dest
        = Except.ok ⟨setEntry (removePath fs dest) dest (Entry.symlink (absSrc cwd src)),
                     [s!"        {absSrc cwd src} => {dest}"], true⟩ ∧
      getEntry (setEntry (removePath fs dest) dest (Entry.symlink (absSrc cwd src))) dest
        = some (Entry.symlink (absSrc cwd src))) ∧
    (∀ (home : String) (g : InstallGroup) (rest : List String) (st : ProcResult),
      st.fs = fs → fileDest home g src = dest →
      pathExists fs src = false →
      processFiles args cloneOk dlOk cwd home g (src :: rest) st
        = processFiles args cloneOk dlOk cwd home g rest
            ⟨removePath fs dest,
             st.out ++ [s!"        Error: file \"{src}\" does not exist"], st.done⟩) := by
  refine ⟨?_, ?_, ?_⟩
  · intro hS
    refine ⟨process_local_missing args cloneOk dlOk cwd fs src dest hU hgit hhttp hE hS, ?_⟩
    exact getEntry_removePath_self fs dest
  · intro hS
    refine ⟨process_local_present args cloneOk dlOk cwd fs src dest hU hD hgit hhttp hE hS, ?_⟩
    exact getEntry_setEntry_self _ _ _
  · intro home g rest st hst hfd hS
    have h1 : process args cloneOk dlOk cwd st.fs src (fileDest home g src)
        = Except.ok ⟨removePath fs dest,
                     [s!"        Error: file \"{src}\" does not exist"], false⟩ := by
      rw [hst, hfd]
      exact process_local_missing args cloneOk dlOk cwd fs src dest hU hgit hhttp hE hS
    simp [processFiles, h1]

/-- C9 witness: the theorem instantiated at a missing source `"miss"` and an
existing source (separate destination) in a concrete filesystem. -/
theorem c9_local_source_fetch_witness :
    (pathExists [("ok", Entry.file)] "D/miss" = false) ∧
    ((pathExists [("ok", Entry.file)] "miss" = false →
      process ⟨false, false, false, false⟩ true true "/c" [("ok", Entry.file)] "miss" "D/miss"
        = Except.ok ⟨removePath [("ok", Entry.file)] "D/miss",
                     [s!"        Error: file \"miss\" does not exist"], false⟩ ∧
      getEntry (removePath [("ok", Entry.file)] "D/miss") "D/miss" = none) ∧
     (pathExists [("ok", Entry.file)] "miss" = true →
      process ⟨false, false, false, false⟩ true true "/c" [("ok", Entry.file)] "miss" "D/miss"
        = Except.ok ⟨setEntry (removePath [("ok", Entry.file)] "D/miss") "D/miss"
                       (Entry.symlink (absSrc "/c" "miss")),
                     ["        /c/miss => D/miss"], true⟩ ∧
      getEntry (setEntry (removePath [("ok", Entry.file)] "D/miss") "D/miss"
          (Entry.symlink (absSrc "/c" "miss"))) "D/miss"
        = some (Entry.symlink (absSrc "/c" "miss"))) ∧
     (∀ (home : String) (g : InstallGroup) (rest : List String) (st : ProcResult),
      st.fs = [("ok", Entry.file)] → fileDest home g "miss" = "D/miss" →
      pathExists [("ok", Entry.file)] "miss" = false →
      processFiles ⟨false, false, false, false⟩ true true "/c" home g ("miss" :: rest) st
        = processFiles ⟨false, false, false, false⟩ true true "/c" home g rest
            ⟨removePath [("ok", Entry.file)] "D/miss",
             st.out ++ [s!"        Error: file \"miss\" does not exist"], st.done⟩)) :=
  ⟨by decide,
   c9_local_source_fetch ⟨false, false, false, false⟩ true true "/c" [("ok", Entry.file)]
     "miss" "D/miss" rfl rfl (by decide) (by decide) (by decide)⟩

/-! ## C3 — conditional groups (modelled from the spec) -/

/-- C3: when a group carries a `condition` whose shell evaluation exits
non-zero, the (spec-modelled) Reconciler skips the whole group: the
filesystem is untouched (so the group directory is not created and no item
is processed), in install and uninstall modes alike, and the skip line is
distinct from the "Nothing done" line. -/
theorem c3_failing_condition_skips_group (args : Args) (shell : String → Nat)
    (cloneOk dlOk : Bool) (cwd home : String) (fs : FS) (name : String)
    (g : CondInstallGroup) (c : String)
    (hc : g.condition = some c) (hfail : shell c ≠ 0) :
    processGroupCond args shell cloneOk dlOk cwd home fs name g
      = Except.ok (fs, [s!"    {name}:", "        Skipped (condition failed)"]) ∧
    ("        Skipped (condition failed)" : String) ≠ "        Nothing done" := by
  constructor
  · simp [processGroupCond, hc, hfail]
  · decide

/-- C3 witness: a concrete group with `condition = "exit 1"` failing under a
concrete shell oracle, in uninstall mode. -/
theorem c3_failing_condition_skips_group_witness :
    ((⟨⟨"D", false, ["x"], []⟩, some "exit 1"⟩ : CondInstallGroup).condition = some "exit 1" ∧
     (fun (_ : String) => 1) "exit 1" ≠ 0) ∧
    (processGroupCond ⟨true, false, false, false⟩ (fun _ => 1) true true "/c" "/h"
        [("f", Entry.file)] "g" ⟨⟨"D", false, ["x"], []⟩, some "exit 1"⟩
      = Except.ok ([("f", Entry.file)], [s!"    g:", "        Skipped (condition failed)"]) ∧
     ("        Skipped (condition failed)" : String) ≠ "        Nothing done") :=
  ⟨⟨rfl, by decide⟩,
   c3_failing_condition_skips_group ⟨true, false, false, false⟩ (fun _ => 1) true true
     "/c" "/h" [("f", Entry.file)] "g" ⟨⟨"D", false, ["x"], []⟩, some "exit 1"⟩ "exit 1"
     rfl (by decide)⟩

/-! ## C5 — `.git` suffix stripped from the clone destination (modelled from the spec) -/

theorem listPre_iff (p l : List Char) : listPre p l = true ↔ ∃ t, l = p ++ t := by
  induction p generalizing l with
  | nil => simp [listPre]
  | cons a q ih =>
    cases l with
    | nil => simp [listPre]
    | cons b m =>
      simp only [listPre, Bool.and_eq_true, beq_iff_eq, ih, List.cons_append]
      constructor
      · rintro ⟨h1, t, h2⟩
        exact ⟨t, by rw [h1, h2]⟩
      · rintro ⟨t, h⟩
        cases h
        exact ⟨rfl, t, rfl⟩

theorem pyEndsWith_iff (s t : String) :
    pyEndsWith s t = true ↔ ∃ u, s.toList = u ++ t.toList := by
  unfold pyEndsWith
  rw [listPre_iff]
  constructor
  · rintro ⟨r, h⟩
    refine ⟨r.reverse, ?_⟩
    have := congrArg List.reverse h
    simpa using this
  · rintro ⟨u, h⟩
    refine ⟨u.reverse, ?_⟩
    rw [h]
    simp

/-- C5: for a source and a computed destination that both end in `.git`, the
(spec-modelled) Source Fetcher clones into the destination with its trailing
`.git` suffix removed: the clone target plus `".git"` is exactly the
original destination, the target no longer ends in `.git` (unless the
destination ended in a doubled suffix), and a successful clone leaves a
directory at the stripped target. -/
theorem c5_clone_destination_stripped (src dest : String)
    (hs : pyEndsWith src ".git" = true) (hd : pyEndsWith dest ".git" = true) :
    (∀ (args : Args) (cloneOk dlOk : Bool) (cwd : String) (fs : FS),
      fetch_spec args cloneOk dlOk cwd fs src dest
        = process args cloneOk dlOk cwd fs src (clone_target src dest)) ∧
    clone_target src dest ++ ".git" = dest ∧
    (pyEndsWith dest ".git.git" = false →
      pyEndsWith (clone_target src dest) ".git" = false) ∧
    (∀ (args : Args) (cloneOk dlOk : Bool) (cwd : String) (fs : FS),
      args.uninstall = false → args.dry_run = false → cloneOk = true →
      pathExists fs (clone_target src dest) = false →
      fetch_spec args cloneOk dlOk cwd fs src dest
        = Except.ok ⟨setEntry (removePath fs (clone_target src dest))
                       (clone_target src dest) Entry.dir,
                     [s!"        {src} => {clone_target src dest}"], true⟩) := by
  obtain ⟨u, hu⟩ := (pyEndsWith_iff dest ".git").mp hd
  have hct : clone_target src dest = ⟨u⟩ := by
    unfold clone_target dropSuffix
    rw [if_pos (by simp [hs, hd])]
    rw [hu]
    have hlen : (u ++ (".git" : String).toList).length - ((".git" : String).toList).length
        = u.length := by simp
    rw [hlen]
    rw [List.take_left]
    rfl
  refine ⟨?_, ?_, ?_, ?_⟩
  · intro args cloneOk dlOk cwd fs
    simp [fetch_spec, hs]
  · rw [hct]
    cases dest with
    | mk d =>
      have hd2 : d = u ++ (".git" : String).toList := hu
      rw [hd2]
      rfl
  · intro hnd
    rw [hct]
    cases hend : pyEndsWith (⟨u⟩ : String) ".git"
    · rfl
    · exfalso
      obtain ⟨w, hw⟩ := (pyEndsWith_iff ⟨u⟩ ".git").mp hend
      have : pyEndsWith dest ".git.git" = true := by
        rw [pyEndsWith_iff]
        refine ⟨w, ?_⟩
        rw [hu]
        have hu2 : u = w ++ (".git" : String).toList := hw
        rw [hu2, List.append_assoc]
        rfl
      rw [this] at hnd
      cases hnd
  · intro args cloneOk dlOk cwd fs hU hD hclone hE
    rw [show fetch_spec args cloneOk dlOk cwd fs src dest
        = process args cloneOk dlOk cwd fs src (clone_target src dest) by
      simp [fetch_spec, hs]]
    subst hclone
    simp [process, hU, hD, hE, hs]

/-- C5 witness: the theorem instantiated at `"https://h/repo.git"` cloned to
destination `"D/repo.git"`. -/
theorem c5_clone_destination_stripped_witness :
    (pyEndsWith "https://h/repo.git" ".git" = true ∧
     pyEndsWith "D/repo.git" ".git" = true) ∧
    ((∀ (args : Args) (cloneOk dlOk : Bool) (cwd : String) (fs : FS),
      fetch_spec args cloneOk dlOk cwd fs "https://h/repo.git" "D/repo.git"
        = process args cloneOk dlOk cwd fs "https://h/repo.git"
            (clone_target "https://h/repo.git" "D/repo.git")) ∧
     clone_target "https://h/repo.git" "D/repo.git" ++ ".git" = "D/repo.git" ∧
     (pyEndsWith "D/repo.git" ".git.git" = false →
       pyEndsWith (clone_target "https://h/repo.git" "D/repo.git") ".git" = false) ∧
     (∀ (args : Args) (cloneOk dlOk : Bool) (cwd : String) (fs : FS),
      args.uninstall = false → args.dry_run = false → cloneOk = true →
      pathExists fs (clone_target "https://h/repo.git" "D/repo.git") = false →
      fetch_spec args cloneOk dlOk cwd fs "https://h/repo.git" "D/repo.git"
        = Except.ok ⟨setEntry (removePath fs (clone_target "https://h/repo.git" "D/repo.git"))
                       (clone_target "https://h/repo.git" "D/repo.git") Entry.dir,
                     ["        https://h/repo.git => D/repo"],
                     true⟩)) :=
  ⟨⟨by decide, by decide⟩,
   c5_clone_destination_stripped "https://h/repo.git" "D/repo.git" (by decide) (by decide)⟩

/-! ## C2 — dry-run frame property -/

theorem dryFrame_refl (fs : FS) : dryFrame fs fs := fun _ => Or.inl rfl

theorem dryFrame_trans {fs1 fs2 fs3 : FS}
    (h12 : dryFrame fs1 fs2) (h23 : dryFrame fs2 fs3) : dryFrame fs1 fs3 := by
  intro p
  rcases h23 p with h | ⟨h2, h3⟩
  · rcases h12 p with h' | ⟨h1, h2'⟩
    · exact Or.inl (h.trans h')
    · exact Or.inr ⟨h1, h.trans h2'⟩
  · rcases h12 p with h' | ⟨h1, h2'⟩
    · exact Or.inr ⟨h' ▸ h2, h3⟩
    · rw [h2'] at h2
      cases h2
  
theorem dryFrame_removePath {fs : FS} {p : String} (hp : pathExists fs p = false) :
    dryFrame fs (removePath fs p) := by
  intro q
  by_cases h : q = p
  · subst h
    cases hg : getEntry fs q with
    | none => exact Or.inl (getEntry_removePath_self fs q)
    | some e =>
      cases e with
      | dangling => exact Or.inr ⟨rfl, getEntry_removePath_self fs q⟩
      | file => simp [pathExists, hg] at hp
      | dir => simp [pathExists, hg] at hp
      | symlink t => simp [pathExists, hg] at hp
  · exact Or.inl (getEntry_removePath_ne fs h)

theorem process_dry (args : Args) (cloneOk dlOk : Bool) (cwd : String) (fs : FS)
    (src dest : String) (h : args.dry_run = true) :
    ∃ r, process args cloneOk dlOk cwd fs src dest = Except.ok r ∧
      r.fs = if pathExists fs dest then fs else removePath fs dest := by
  cases hE : pathExists fs dest with
  | true =>
    cases hU : args.uninstall with
    | true =>
      exact ⟨⟨fs, [s!"        {dest}"], true⟩, by simp [process, h, hE, hU], by simp [hE]⟩
    | false =>
      exact ⟨⟨fs, [], false⟩, by simp [process, hE, hU], by simp [hE]⟩
  | false =>
    cases hU : args.uninstall with
    | true =>
      exact ⟨⟨removePath fs dest, [], false⟩, by simp [process, hE, hU], by simp [hE]⟩
    | false =>
      cases hg : pyEndsWith src ".git" with
      | true =>
        exact ⟨⟨removePath fs dest, [s!"        {src} => {dest}"], true⟩,
          by simp [process, h, hE, hU, hg], by simp [hE]⟩
      | false =>
        cases hh : pyStartsWith src "http" with
        | true =>
          exact ⟨⟨removePath fs dest, [s!"        {src} => {dest}"], true⟩,
            by simp [process, h, hE, hU, hg, hh], by simp [hE]⟩
        | false =>
          cases hs : pathExists (removePath fs dest) src with
          | true =>
            exact ⟨⟨removePath fs dest, [s!"        {absSrc cwd src} => {dest}"], true⟩,
              by simp [process, h, hE, hU, hg, hh, hs], by simp [hE]⟩
          | false =>
            exact ⟨⟨removePath fs dest, [s!"        Error: file \"{src}\" does not exist"], false⟩,
              by simp [process, h, hE, hU, hg, hh, hs], by simp [hE]⟩

theorem processFiles_dry (args : Args) (cloneOk dlOk : Bool) (cwd home : String)
    (g : InstallGroup) (h : args.dry_run = true) :
    ∀ (l : List String) (st : ProcResult),
      ∃ r, processFiles args cloneOk dlOk cwd home g l st = Except.ok r ∧
        dryFrame st.fs r.fs := by
  intro l
  induction l with
  | nil => exact fun st => ⟨st, rfl, dryFrame_refl st.fs⟩
  | cons f rest ih =>
    intro st
    obtain ⟨r1, hr1, hfs1⟩ := process_dry args cloneOk dlOk cwd st.fs f (fileDest home g f) h
    have hframe1 : dryFrame st.fs r1.fs := by
      rw [hfs1]
      cases hE : pathExists st.fs (fileDest home g f) with
      | true => simp [hE, dryFrame_refl]
      | false => simp only [hE, if_false, Bool.false_eq_true]; exact dryFrame_removePath hE
    obtain ⟨r2, hr2, hfs2⟩ := ih ⟨r1.fs, st.out ++ r1.out, st.done || r1.done⟩
    exact ⟨r2, by simp [processFiles, hr1, hr2], dryFrame_trans hframe1 hfs2⟩

theorem processRenamed_dry (args : Args) (cloneOk dlOk : Bool) (cwd home : String)
    (g : InstallGroup) (h : args.dry_run = true) :
    ∀ (l : List (String × String)) (st : ProcResult),
      ∃ r, processRenamed args cloneOk dlOk cwd home g l st = Except.ok r ∧
        dryFrame st.fs r.fs := by
  intro l
  induction l with
  | nil => exact fun st => ⟨st, rfl, dryFrame_refl st.fs⟩
  | cons m rest ih =>
    intro st
    obtain ⟨r1, hr1, hfs1⟩ := process_dry args cloneOk dlOk cwd st.fs m.1 (renamedDest home g m) h
    have hframe1 : dryFrame st.fs r1.fs := by
      rw [hfs1]
      cases hE : pathExists st.fs (renamedDest home g m) with
      | true => simp [hE, dryFrame_refl]
      | false => simp only [hE, if_false, Bool.false_eq_true]; exact dryFrame_removePath hE
    obtain ⟨r2, hr2, hfs2⟩ := ih ⟨r1.fs, st.out ++ r1.out, st.done || r1.done⟩
    exact ⟨r2, by simp [processRenamed, hr1, hr2], dryFrame_trans hframe1 hfs2⟩

theorem processGroups_dry (args : Args) (cloneOk dlOk : Bool) (cwd home : String)
    (h : args.dry_run = true) :
    ∀ (gs : List (String × InstallGroup)) (fs : FS),
      ∃ fs1 out1, processGroups args cloneOk dlOk cwd home fs gs = Except.ok (fs1, out1) ∧
        dryFrame fs fs1 := by
  intro gs
  induction gs with
  | nil => exact fun fs => ⟨fs, [], rfl, dryFrame_refl fs⟩
  | cons ng rest ih =>
    intro fs
    obtain ⟨n, g⟩ := ng
    have hfsg : (if !(pathExists fs (dirOf home g) || args.uninstall || args.dry_run)
        then setEntry fs (dirOf home g) Entry.dir else fs) = fs := by
      simp [h]
    obtain ⟨r1, hr1, hfr1⟩ := processFiles_dry args cloneOk dlOk cwd home g h g.files ⟨fs, [], false⟩
    obtain ⟨r2, hr2, hfr2⟩ := processRenamed_dry args cloneOk dlOk cwd home g h g.renamed_files r1
    obtain ⟨fs3, out3, hr3, hfr3⟩ := ih r2.fs
    have hstep : processGroups args cloneOk dlOk cwd home fs ((n, g) :: rest)
        = Except.ok (fs3, (s!"    {n}:" :: r2.out
            ++ (if r2.done then [] else ["        Nothing done"])) ++ out3) := by
      simp only [processGroups, processGroup, hfsg, hr1, hr2, hr3]
    exact ⟨fs3, _, hstep, dryFrame_trans (dryFrame_trans hfr1 hfr2) hfr3⟩

/-- C2 counterexample: under `--dry-run` the code still removes a dangling
symbolic link found at a destination (the cleanup of cue-pine.py lines
174-180 is not guarded by the flag), so a dry run can mutate the
filesystem; and a dry run's report is not always identical to a real run's:
when two items of a group resolve to the same destination, the real run
creates the first and skips the second while the dry run reports both. -/
theorem c2_counterexample :
    (process_installation ⟨false, true, false, false⟩ true true "/c" "/h"
        [("D/x", Entry.dangling), ("D", Entry.dir)]
        ⟨[], [], [], [("g", ⟨"D", false, ["x"], []⟩)]⟩
      = Except.ok ([("D", Entry.dir)],
          ["Installation:", "    g:", "        Error: file \"x\" does not exist",
           "        Nothing done", ""]) ∧
     ([("D", Entry.dir)] : FS) ≠ [("D/x", Entry.dangling), ("D", Entry.dir)]) ∧
    (process_installation ⟨false, true, false, false⟩ true true "/c" "/h"
        [("D", Entry.dir), ("a.txt", Entry.file), ("b/a.txt", Entry.file)]
        ⟨[], [], [], [("g", ⟨"D", false, ["a.txt", "b/a.txt"], []⟩)]⟩
      = Except.ok ([("D", Entry.dir), ("a.txt", Entry.file), ("b/a.txt", Entry.file)],
          ["Installation:", "    g:", "        /c/a.txt => D/a.txt",
           "        /c/b/a.txt => D/a.txt", ""]) ∧
     process_installation ⟨false, false, false, false⟩ true true "/c" "/h"
        [("D", Entry.dir), ("a.txt", Entry.file), ("b/a.txt", Entry.file)]
        ⟨[], [], [], [("g", ⟨"D", false, ["a.txt", "b/a.txt"], []⟩)]⟩
      = Except.ok ([("D/a.txt", Entry.symlink "/c/a.txt"), ("D", Entry.dir),
                    ("a.txt", Entry.file), ("b/a.txt", Entry.file)],
          ["Installation:", "    g:", "        /c/a.txt => D/a.txt", ""]) ∧
     (["Installation:", "    g:", "        /c/a.txt => D/a.txt",
       "        /c/b/a.txt => D/a.txt", ""] : List String)
       ≠ ["Installation:", "    g:", "        /c/a.txt => D/a.txt", ""]) := by
  refine ⟨⟨by decide, by decide⟩, by decide, by decide, by decide⟩

/-- C2 amended: under dry-run an installation pass never fails and performs
no mutation other than the unguarded cleanup of dangling links at
destinations reported non-existent: every path either keeps its entry or
loses a dangling one (`dryFrame`).  Reports coincide with a real run
per item (for identical pre-states): whenever the real-mode `process`
returns, the dry-mode `process` prints the same lines.  (Group-level output
can still differ because a real run's earlier mutations change later items'
pre-states, as the counterexample shows.) -/
theorem c2_dry_run_frame (args : Args) (cloneOk dlOk : Bool) (cwd home : String)
    (fs : FS) (cfg : Config) (h : args.dry_run = true) :
    (∃ fs1 out1, process_installation args cloneOk dlOk cwd home fs cfg
        = Except.ok (fs1, out1) ∧ dryFrame fs fs1) ∧
    (∀ (src dest : String) (r1 : ProcResult),
      process {args with dry_run := false} cloneOk dlOk cwd fs src dest = Except.ok r1 →
      ∃ r, process args cloneOk dlOk cwd fs src dest = Except.ok r ∧ r.out = r1.out) := by
  constructor
  · obtain ⟨fs1, out1, hr, hfr⟩ :=
      processGroups_dry args cloneOk dlOk cwd home h cfg.installation fs
    refine ⟨fs1, (if args.uninstall then "Uninstallation:" else "Installation:") :: out1 ++ [""],
      ?_, hfr⟩
    simp [process_installation, hr]
  · intro src dest r1 hreal
    cases hE : pathExists fs dest with
    | true =>
      cases hU : args.uninstall with
      | true =>
        cases hgd : getEntry fs dest with
        | some e =>
          cases e with
          | dir => simp [process, hE, hU, hgd] at hreal
          | file =>
            simp [process, hE, hU, hgd] at hreal
            subst hreal
            exact ⟨⟨fs, [s!"        {dest}"], true⟩, by simp [process, h, hE, hU], rfl⟩
          | symlink t =>
            simp [process, hE, hU, hgd] at hreal
            subst hreal
            exact ⟨⟨fs, [s!"        {dest}"], true⟩, by simp [process, h, hE, hU], rfl⟩
          | dangling =>
            simp [process, hE, hU, hgd] at hreal
            subst hreal
            exact ⟨⟨fs, [s!"        {dest}"], true⟩, by simp [process, h, hE, hU], rfl⟩
        | none =>
          simp [process, hE, hU, hgd] at hreal
          subst hreal
          exact ⟨⟨fs, [s!"        {dest}"], true⟩, by simp [process, h, hE, hU], rfl⟩
      | false =>
        simp [process, hE, hU] at hreal
        subst hreal
        exact ⟨⟨fs, [], false⟩, by simp [process, hE, hU], rfl⟩
    | false =>
      cases hU : args.uninstall with
      | true =>
        simp [process, hE, hU] at hreal
        subst hreal
        exact ⟨⟨removePath fs dest, [], false⟩, by simp [process, hE, hU], rfl⟩
      | false =>
        cases hg : pyEndsWith src ".git" with
        | true =>
          simp [process, hE, hU, hg] at hreal
          subst hreal
          exact ⟨⟨removePath fs dest, [s!"        {src} => {dest}"], true⟩,
            by simp [process, h, hE, hU, hg], rfl⟩
        | false =>
          cases hh : pyStartsWith src "http" with
          | true =>
            cases hdl : dlOk with
            | false => simp [process, hE, hU, hg, hh, hdl] at hreal
            | true =>
              simp [process, hE, hU, hg, hh, hdl] at hreal
              subst hreal
              exact ⟨⟨removePath fs dest, [s!"        {src} => {dest}"], true⟩,
                by simp [process, h, hE, hU, hg, hh], rfl⟩
          | false =>
            cases hs : pathExists (removePath fs dest) src with
            | false =>
              simp [process, hE, hU, hg, hh, hs] at hreal
              subst hreal
              exact ⟨⟨removePath fs dest,
                [s!"        Error: file \"{src}\" does not exist"], false⟩,
                by simp [process, hE, hU, hg, hh, hs], rfl⟩
            | true =>
              simp [process, hE, hU, hg, hh, hs] at hreal
              subst hreal
              exact ⟨⟨removePath fs dest, [s!"        {absSrc cwd src} => {dest}"], true⟩,
                by simp [process, h, hE, hU, hg, hh, hs], rfl⟩

/-- C2 witness: the amended theorem instantiated at the dangling-link
filesystem and a one-group manifest. -/
theorem c2_dry_run_frame_witness :
    ((⟨false, true, false, false⟩ : Args).dry_run = true) ∧
    ((∃ fs1 out1, process_installation ⟨false, true, false, false⟩ true true "/c" "/h"
        [("D/x", Entry.dangling), ("D", Entry.dir)]
        ⟨[], [], [], [("g", ⟨"D", false, ["x"], []⟩)]⟩
        = Except.ok (fs1, out1) ∧ dryFrame [("D/x", Entry.dangling), ("D", Entry.dir)] fs1) ∧
     (∀ (src dest : String) (r1 : ProcResult),
      process {(⟨false, true, false, false⟩ : Args) with dry_run := false} true true "/c"
          [("D/x", Entry.dangling), ("D", Entry.dir)] src dest = Except.ok r1 →
      ∃ r, process ⟨false, true, false, false⟩ true true "/c"
          [("D/x", Entry.dangling), ("D", Entry.dir)] src dest = Except.ok r ∧
        r.out = r1.out)) :=
  ⟨rfl,
   c2_dry_run_frame ⟨false, true, false, false⟩ true true "/c" "/h"
     [("D/x", Entry.dangling), ("D", Entry.dir)]
     ⟨[], [], [], [("g", ⟨"D", false, ["x"], []⟩)]⟩ rfl⟩

/-! ## C8 — idempotence of install -/

theorem fsMono_refl (fs : FS) : fsMono fs fs := fun _ h => h

theorem fsMono_trans {a b c : FS} (h1 : fsMono a b) (h2 : fsMono b c) : fsMono a c :=
  fun q h => h2 q (h1 q h)

theorem srcOk_mono {a b : FS} (h : fsMono a b) {f : String} (hf : srcOk a f = true) :
    srcOk b f = true := by
  unfold srcOk at hf ⊢
  rcases Bool.or_eq_true_iff.mp hf with h1 | h2
  · rw [h1]; rfl
  · rw [h f h2]
    simp

theorem fsMono_setEntry_over_removePath {fs : FS} {dest : String} {e : Entry}
    (hE : pathExists fs dest = false) (he : e ≠ Entry.dangling) :
    fsMono fs (setEntry (removePath fs dest) dest e) := by
  intro q hq
  by_cases hqd : q = dest
  · subst hqd
    exact pathExists_setEntry_self_live (removePath fs q) q he
  · rw [pathExists_setEntry_ne _ e hqd, pathExists_removePath fs hE q]
    exact hq

theorem process_present_noop (args : Args) (cloneOk dlOk : Bool) (cwd : String)
    (fs : FS) (src dest : String)
    (hU : args.uninstall = false) (hE : pathExists fs dest = true) :
    process args cloneOk dlOk cwd fs src dest = Except.ok ⟨fs, [], false⟩ := by
  simp [process, hE, hU]

theorem process_install_establishes (args : Args) (cwd : String)
    (fs : FS) (src dest : String)
    (hU : args.uninstall = false) (hD : args.dry_run = false)
    (hsrc : srcOk fs src = true) :
    ∃ r, process args true true cwd fs src dest = Except.ok r ∧
      pathExists r.fs dest = true ∧ fsMono fs r.fs := by
  cases hE : pathExists fs dest with
  | true =>
    exact ⟨⟨fs, [], false⟩, process_present_noop args true true cwd fs src dest hU hE,
      hE, fsMono_refl fs⟩
  | false =>
    cases hg : pyEndsWith src ".git" with
    | true =>
      refine ⟨⟨setEntry (removePath fs dest) dest Entry.dir,
        [s!"        {src} => {dest}"], true⟩, ?_, ?_, ?_⟩
      · simp [process, hE, hU, hD, hg]
      · exact pathExists_setEntry_self_live _ _ (by intro hc; cases hc)
      · exact fsMono_setEntry_over_removePath hE (by intro hc; cases hc)
    | false =>
      cases hh : pyStartsWith src "http" with
      | true =>
        refine ⟨⟨setEntry (removePath fs dest) dest Entry.file,
          [s!"        {src} => {dest}"], true⟩, ?_, ?_, ?_⟩
        · simp [process, hE, hU, hD, hg, hh]
        · exact pathExists_setEntry_self_live _ _ (by intro hc; cases hc)
        · exact fsMono_setEntry_over_removePath hE (by intro hc; cases hc)
      | false =>
        have hs : pathExists fs src = true := by
          have := hsrc
          unfold srcOk at this
          rw [hg, hh] at this
          simpa using this
        have hs1 : pathExists (removePath fs dest) src = true := by
          rw [pathExists_removePath fs hE src]; exact hs
        refine ⟨⟨setEntry (removePath fs dest) dest (Entry.symlink (absSrc cwd src)),
          [s!"        {absSrc cwd src} => {dest}"], true⟩, ?_, ?_, ?_⟩
        · simp [process, hE, hU, hD, hg, hh, hs1]
        · exact pathExists_setEntry_self_live _ _ (by intro hc; cases hc)
        · exact fsMono_setEntry_over_removePath hE (by intro hc; cases hc)

theorem processFiles_install (args : Args) (cwd home : String) (g : InstallGroup)
    (hU : args.uninstall = false) (hD : args.dry_run = false) :
    ∀ (l : List String) (st : ProcResult),
      (∀ f ∈ l, srcOk st.fs f = true) →
      ∃ r, processFiles args true true cwd home g l st = Except.ok r ∧
        fsMono st.fs r.fs ∧
        (∀ f ∈ l, pathExists r.fs (fileDest home g f) = true) := by
  intro l
  induction l with
  | nil => exact fun st _ => ⟨st, rfl, fsMono_refl st.fs, by simp⟩
  | cons f rest ih =>
    intro st hsrc
    obtain ⟨r1, hr1, hdest1, hmono1⟩ :=
      process_install_establishes args cwd st.fs f (fileDest home g f) hU hD
        (hsrc f (by simp))
    obtain ⟨r2, hr2, hmono2, hdest2⟩ :=
      ih ⟨r1.fs, st.out ++ r1.out, st.done || r1.done⟩
        (fun f' hf' => srcOk_mono hmono1 (hsrc f' (by simp [hf'])))
    refine ⟨r2, by simp [processFiles, hr1, hr2], fsMono_trans hmono1 hmono2, ?_⟩
    intro f' hf'
    rcases List.mem_cons.mp hf' with h | h
    · subst h
      exact hmono2 _ hdest1
    · exact hdest2 f' h

theorem processRenamed_install (args : Args) (cwd home : String) (g : InstallGroup)
    (hU : args.uninstall = false) (hD : args.dry_run = false) :
    ∀ (l : List (String × String)) (st : ProcResult),
      (∀ m ∈ l, srcOk st.fs m.1 = true) →
      ∃ r, processRenamed args true true cwd home g l st = Except.ok r ∧
        fsMono st.fs r.fs ∧
        (∀ m ∈ l, pathExists r.fs (renamedDest home g m) = true) := by
  intro l
  induction l with
  | nil => exact fun st _ => ⟨st, rfl, fsMono_refl st.fs, by simp⟩
  | cons m rest ih =>
    intro st hsrc
    obtain ⟨r1, hr1, hdest1, hmono1⟩ :=
      process_install_establishes args cwd st.fs m.1 (renamedDest home g m) hU hD
        (hsrc m (by simp))
    obtain ⟨r2, hr2, hmono2, hdest2⟩ :=
      ih ⟨r1.fs, st.out ++ r1.out, st.done || r1.done⟩
        (fun m' hm' => srcOk_mono hmono1 (hsrc m' (by simp [hm'])))
    refine ⟨r2, by simp [processRenamed, hr1, hr2], fsMono_trans hmono1 hmono2, ?_⟩
    intro m' hm'
    rcases List.mem_cons.mp hm' with h | h
    · subst h
      exact hmono2 _ hdest1
    · exact hdest2 m' h

theorem processGroup_install (args : Args) (cwd home : String)
    (fs : FS) (n : String) (g : InstallGroup)
    (hU : args.uninstall = false) (hD : args.dry_run = false)
    (hf : ∀ f ∈ g.files, srcOk fs f = true)
    (hm : ∀ m ∈ g.renamed_files, srcOk fs m.1 = true) :
    ∃ fs1 out1, processGroup args true true cwd home fs n g = Except.ok (fs1, out1) ∧
      fsMono fs fs1 ∧
      pathExists fs1 (dirOf home g) = true ∧
      (∀ f ∈ g.files, pathExists fs1 (fileDest home g f) = true) ∧
      (∀ m ∈ g.renamed_files, pathExists fs1 (renamedDest home g m) = true) := by
  set dir := dirOf home g with hdirdef
  have hcases : ∃ fsg, (if !(pathExists fs dir || args.uninstall || args.dry_run)
      then setEntry fs dir Entry.dir else fs) = fsg ∧
      fsMono fs fsg ∧ pathExists fsg dir = true := by
    cases hdir : pathExists fs dir with
    | true => exact ⟨fs, by simp [hdir], fsMono_refl fs, hdir⟩
    | false =>
      refine ⟨setEntry fs dir Entry.dir, by simp [hdir, hU, hD], ?_,
        pathExists_setEntry_self_live _ _ (by intro hc; cases hc)⟩
      intro q hq
      by_cases hqd : q = dir
      · subst hqd
        exact pathExists_setEntry_self_live _ _ (by intro hc; cases hc)
      · rw [pathExists_setEntry_ne _ _ hqd]
        exact hq
  obtain ⟨fsg, hfsg, hmonog, hdirg⟩ := hcases
  obtain ⟨r1, hr1, hmono1, hdest1⟩ :=
    processFiles_install args cwd home g hU hD g.files ⟨fsg, [], false⟩
      (fun f hff => srcOk_mono hmonog (hf f hff))
  obtain ⟨r2, hr2, hmono2, hdest2⟩ :=
    processRenamed_install args cwd home g hU hD g.renamed_files r1
      (fun m' hm' => srcOk_mono (fsMono_trans hmonog hmono1) (hm m' hm'))
  refine ⟨r2.fs, s!"    {n}:" :: r2.out ++ (if r2.done then [] else ["        Nothing done"]),
    ?_, fsMono_trans hmonog (fsMono_trans hmono1 hmono2), ?_, ?_, ?_⟩
  · simp only [processGroup, ← hdirdef, hfsg, hr1, hr2]
  · exact hmono2 _ (hmono1 _ hdirg)
  · exact fun f hff => hmono2 _ (hdest1 f hff)
  · exact hdest2

theorem processGroups_install (args : Args) (cwd home : String)
    (hU : args.uninstall = false) (hD : args.dry_run = false) :
    ∀ (gs : List (String × InstallGroup)) (fs : FS),
      (∀ ng ∈ gs, (∀ f ∈ (ng : String × InstallGroup).2.files, srcOk fs f = true) ∧
        (∀ m ∈ ng.2.renamed_files, srcOk fs m.1 = true)) →
      ∃ fs1 out1, processGroups args true true cwd home fs gs = Except.ok (fs1, out1) ∧
        fsMono fs fs1 ∧
        (∀ ng ∈ gs, pathExists fs1 (dirOf home (ng : String × InstallGroup).2) = true ∧
          (∀ f ∈ ng.2.files, pathExists fs1 (fileDest home ng.2 f) = true) ∧
          (∀ m ∈ ng.2.renamed_files, pathExists fs1 (renamedDest home ng.2 m) = true)) := by
  intro gs
  induction gs with
  | nil => exact fun fs _ => ⟨fs, [], rfl, fsMono_refl fs, by simp⟩
  | cons ng rest ih =>
    intro fs hsrc
    obtain ⟨n, g⟩ := ng
    obtain ⟨fs1, out1, hr1, hmono1, hdir1, hf1, hm1⟩ :=
      processGroup_install args cwd home fs n g hU hD
        (hsrc (n, g) (by simp)).1 (hsrc (n, g) (by simp)).2
    obtain ⟨fs2, out2, hr2, hmono2, hrest⟩ :=
      ih fs1 (fun ng' hng' =>
        ⟨fun f hff => srcOk_mono hmono1 ((hsrc ng' (by simp [hng'])).1 f hff),
         fun m' hm' => srcOk_mono hmono1 ((hsrc ng' (by simp [hng'])).2 m' hm')⟩)
    refine ⟨fs2, out1 ++ out2, by simp [processGroups, hr1, hr2],
      fsMono_trans hmono1 hmono2, ?_⟩
    intro ng' hng'
    rcases List.mem_cons.mp hng' with h | h
    · subst h
      exact ⟨hmono2 _ hdir1, fun f hff => hmono2 _ (hf1 f hff),
        fun m' hm' => hmono2 _ (hm1 m' hm')⟩
    · exact hrest ng' h

theorem processFiles_noop (args : Args) (cloneOk dlOk : Bool) (cwd home : String)
    (g : InstallGroup) (hU : args.uninstall = false) :
    ∀ (l : List String) (st : ProcResult),
      (∀ f ∈ l, pathExists st.fs (fileDest home g f) = true) →
      processFiles args cloneOk dlOk cwd home g l st = Except.ok st := by
  intro l
  induction l with
  | nil => exact fun st _ => rfl
  | cons f rest ih =>
    intro st hdest
    have h1 : process args cloneOk dlOk cwd st.fs f (fileDest home g f)
        = Except.ok ⟨st.fs, [], false⟩ :=
      process_present_noop args cloneOk dlOk cwd st.fs f (fileDest home g f) hU
        (hdest f (by simp))
    have hst : (⟨st.fs, st.out ++ [], st.done || false⟩ : ProcResult) = st := by
      cases st
      simp
    rw [show processFiles args cloneOk dlOk cwd home g (f :: rest) st
        = processFiles args cloneOk dlOk cwd home g rest ⟨st.fs, st.out ++ [], st.done || false⟩
      by simp [processFiles, h1], hst]
    exact ih st (fun f' hf' => hdest f' (by simp [hf']))

theorem processRenamed_noop (args : Args) (cloneOk dlOk : Bool) (cwd home : String)
    (g : InstallGroup) (hU : args.uninstall = false) :
    ∀ (l : List (String × String)) (st : ProcResult),
      (∀ m ∈ l, pathExists st.fs (renamedDest home g m) = true) →
      processRenamed args cloneOk dlOk cwd home g l st = Except.ok st := by
  intro l
  induction l with
  | nil => exact fun st _ => rfl
  | cons m rest ih =>
    intro st hdest
    have h1 : process args cloneOk dlOk cwd st.fs m.1 (renamedDest home g m)
        = Except.ok ⟨st.fs, [], false⟩ :=
      process_present_noop args cloneOk dlOk cwd st.fs m.1 (renamedDest home g m) hU
        (hdest m (by simp))
    have hst : (⟨st.fs, st.out ++ [], st.done || false⟩ : ProcResult) = st := by
      cases st
      simp
    rw [show processRenamed args cloneOk dlOk cwd home g (m :: rest) st
        = processRenamed args cloneOk dlOk cwd home g rest ⟨st.fs, st.out ++ [], st.done || false⟩
      by simp [processRenamed, h1], hst]
    exact ih st (fun m' hm' => hdest m' (by simp [hm']))

theorem processGroup_noop (args : Args) (cloneOk dlOk : Bool) (cwd home : String)
    (fs : FS) (n : String) (g : InstallGroup)
    (hU : args.uninstall = false)
    (hdir : pathExists fs (dirOf home g) = true)
    (hf : ∀ f ∈ g.files, pathExists fs (fileDest home g f) = true)
    (hm : ∀ m ∈ g.renamed_files, pathExists fs (renamedDest home g m) = true) :
    processGroup args cloneOk dlOk cwd home fs n g
      = Except.ok (fs, [s!"    {n}:", "        Nothing done"]) := by
  have h1 : processFiles args cloneOk dlOk cwd home g g.files
      (⟨fs, [], false⟩ : ProcResult) = Except.ok ⟨fs, [], false⟩ :=
    processFiles_noop args cloneOk dlOk cwd home g hU g.files ⟨fs, [], false⟩ hf
  have h2 : processRenamed args cloneOk dlOk cwd home g g.renamed_files
      (⟨fs, [], false⟩ : ProcResult) = Except.ok ⟨fs, [], false⟩ :=
    processRenamed_noop args cloneOk dlOk cwd home g hU g.renamed_files ⟨fs, [], false⟩ hm
  simp only [processGroup]
  rw [show (!(pathExists fs (dirOf home g) || args.uninstall || args.dry_run)) = false
    by simp [hdir]]
  simp [h1, h2]

theorem processGroups_noop (args : Args) (cloneOk dlOk : Bool) (cwd home : String)
    (hU : args.uninstall = false) :
    ∀ (gs : List (String × InstallGroup)) (fs : FS),
      (∀ ng ∈ gs, pathExists fs (dirOf home (ng : String × InstallGroup).2) = true ∧
        (∀ f ∈ ng.2.files, pathExists fs (fileDest home ng.2 f) = true) ∧
        (∀ m ∈ ng.2.renamed_files, pathExists fs (renamedDest home ng.2 m) = true)) →
      processGroups args cloneOk dlOk cwd home fs gs = Except.ok (fs, idleGroupsOut gs) := by
  intro gs
  induction gs with
  | nil => exact fun fs _ => rfl
  | cons ng rest ih =>
    intro fs hsat
    obtain ⟨n, g⟩ := ng
    have h1 := processGroup_noop args cloneOk dlOk cwd home fs n g hU
      (hsat (n, g) (by simp)).1 (hsat (n, g) (by simp)).2.1 (hsat (n, g) (by simp)).2.2
    have h2 := ih fs (fun ng' hng' => hsat ng' (by simp [hng']))
    simp [processGroups, h1, h2, idleGroupsOut]

/-- C8 counterexample: with a manifest whose single item has a missing local
source, two successive installs both take no action, and after the second
run the item is still not in the present state — the claim's "on the second
run every item is in the present state" fails.  (The run is otherwise
idempotent: the filesystem never changes.) -/
theorem c8_counterexample :
    process_installation ⟨false, false, false, false⟩ true true "/c" "/h"
        [("D", Entry.dir)] ⟨[], [], [], [("g", ⟨"D", false, ["nope"], []⟩)]⟩
      = Except.ok ([("D", Entry.dir)],
          ["Installation:", "    g:", "        Error: file \"nope\" does not exist",
           "        Nothing done", ""]) ∧
    pathExists [("D", Entry.dir)]
      (fileDest "/h" ⟨"D", false, ["nope"], []⟩ "nope") = false := by
  refine ⟨by decide, by decide⟩

/-- C8 amended: provided every item of the manifest is fetchable on the
first run (each source is remote — git or HTTP — or an existing local path,
and the external clone and download operations succeed), install is
idempotent: the first run leaves every group directory and every item
destination present, and a second run returns the filesystem unchanged,
takes no action on any target, and reports "Nothing done" for every group.
Without that proviso the second run still mutates nothing, but an item with
a missing source remains absent (see the counterexample). -/
theorem c8_install_idempotent (args : Args) (cwd home : String) (fs : FS) (cfg : Config)
    (hU : args.uninstall = false) (hD : args.dry_run = false)
    (hsrc : ∀ ng ∈ cfg.installation,
      (∀ f ∈ (ng : String × InstallGroup).2.files, srcOk fs f = true) ∧
      (∀ m ∈ ng.2.renamed_files, srcOk fs m.1 = true)) :
    ∃ fs1 out1, process_installation args true true cwd home fs cfg = Except.ok (fs1, out1) ∧
      (∀ ng ∈ cfg.installation,
        pathExists fs1 (dirOf home (ng : String × InstallGroup).2) = true ∧
        (∀ f ∈ ng.2.files, pathExists fs1 (fileDest home ng.2 f) = true) ∧
        (∀ m ∈ ng.2.renamed_files, pathExists fs1 (renamedDest home ng.2 m) = true)) ∧
      process_installation args true true cwd home fs1 cfg
        = Except.ok (fs1, "Installation:" :: idleGroupsOut cfg.installation ++ [""]) := by
  obtain ⟨fs1, out1, hr1, hmono1, hsat⟩ :=
    processGroups_install args cwd home hU hD cfg.installation fs hsrc
  refine ⟨fs1, (if args.uninstall then "Uninstallation:" else "Installation:") :: out1 ++ [""],
    by simp [process_installation, hr1], hsat, ?_⟩
  have h2 := processGroups_noop args true true cwd home hU cfg.installation fs1 hsat
  simp [process_installation, h2, hU]

/-- C8 witness: the amended theorem instantiated at a one-group manifest
linking an existing `a.txt` into `$HOME/x`. -/
theorem c8_install_idempotent_witness :
    (∀ ng ∈ ([("g", ⟨"$HOME/x", false, ["a.txt"], []⟩)] : List (String × InstallGroup)),
      (∀ f ∈ (ng : String × InstallGroup).2.files,
        srcOk [("a.txt", Entry.file)] f = true) ∧
      (∀ m ∈ ng.2.renamed_files, srcOk [("a.txt", Entry.file)] m.1 = true)) ∧
    (∃ fs1 out1,
      process_installation ⟨false, false, false, false⟩ true true "/c" "/h"
          [("a.txt", Entry.file)] ⟨[], [], [], [("g", ⟨"$HOME/x", false, ["a.txt"], []⟩)]⟩
        = Except.ok (fs1, out1) ∧
      (∀ ng ∈ ([("g", ⟨"$HOME/x", false, ["a.txt"], []⟩)] : List (String × InstallGroup)),
        pathExists fs1 (dirOf "/h" (ng : String × InstallGroup).2) = true ∧
        (∀ f ∈ ng.2.files, pathExists fs1 (fileDest "/h" ng.2 f) = true) ∧
        (∀ m ∈ ng.2.renamed_files, pathExists fs1 (renamedDest "/h" ng.2 m) = true)) ∧
      process_installation ⟨false, false, false, false⟩ true true "/c" "/h" fs1
          ⟨[], [], [], [("g", ⟨"$HOME/x", false, ["a.txt"], []⟩)]⟩
        = Except.ok (fs1, "Installation:"
            :: idleGroupsOut [("g", ⟨"$HOME/x", false, ["a.txt"], []⟩)] ++ [""])) :=
  ⟨by decide,
   c8_install_idempotent ⟨false, false, false, false⟩ "/c" "/h" [("a.txt", Entry.file)]
     ⟨[], [], [], [("g", ⟨"$HOME/x", false, ["a.txt"], []⟩)]⟩ rfl rfl (by decide)⟩

/-! ## C6 — strict pre-hook failure -/

/-- C6 counterexample: with `--strict-pre` and a failing pre command in the
first manifest, the program calls `exit(1)` (cue-pine.py line 224): the run
terminates with exit code 1 and the second manifest is never processed —
its header never appears in the output — contradicting the claim that
subsequent manifests are still handled. -/
theorem c6_counterexample :
    runManifests ⟨false, false, true, false⟩ (fun _ => true) (fun _ => 1) true true "/h" []
        [("A", ⟨[], ["boom"], [], []⟩), ("B", ⟨[], [], [], [("g", ⟨"D", false, [], []⟩)]⟩)]
      = Outcome.exited 1 []
          ["===== A =====", "pre-scripts:", "    running pre script #0",
           "Error: exit code 1 was produced by the command boom"] ∧
    ("===== B =====" : String)
      ∉ (["===== A =====", "pre-scripts:", "    running pre script #0",
          "Error: exit code 1 was produced by the command boom"] : List String) := by
  refine ⟨by decide, by decide⟩

/-- C6 amended: when a pre-hook command fails under strict mode, the program
exits immediately with code 1: the manifest's remaining phases are skipped
and — contrary to the claim — manifests discovered later in the walk are
not processed either; the outcome is the same whatever follows in the
walk. -/
theorem c6_strict_pre_failure_aborts_program (args : Args) (which : String → Bool)
    (shell : String → Nat) (cloneOk dlOk : Bool) (home : String) (fs : FS)
    (cwd : String) (cfg : Config) (hout : List String)
    (hU : args.uninstall = false) (hC : args.check_dependencies = false)
    (hdep : (check_dependencies args which cfg).ok = true)
    (halt : alt_process args shell "pre" cfg.pre = Except.error hout) :
    ∀ rest, runManifests args which shell cloneOk dlOk home fs ((cwd, cfg) :: rest)
      = Outcome.exited 1 fs
          ((s!"===== {cwd} =====" :: (check_dependencies args which cfg).out) ++ hout) ∧
      exitCode (runManifests args which shell cloneOk dlOk home fs ((cwd, cfg) :: rest)) = 1 := by
  intro rest
  have hpcf : process_config_file args which shell cloneOk dlOk home fs cwd cfg
      = Outcome.exited 1 fs
          ((s!"===== {cwd} =====" :: (check_dependencies args which cfg).out) ++ hout) := by
    simp [process_config_file, hU, hC, hdep, halt]
  constructor
  · simp [runManifests, hpcf]
  · simp [runManifests, hpcf, exitCode]

/-- C6 witness: the amended theorem at a concrete failing pre command,
followed by a second manifest. -/
theorem c6_strict_pre_failure_aborts_program_witness :
    ((check_dependencies ⟨false, false, true, false⟩ (fun _ => true)
        ⟨[], ["boom"], [], []⟩).ok = true ∧
     alt_process ⟨false, false, true, false⟩ (fun _ => 1) "pre" ["boom"]
      = Except.error ["pre-scripts:", "    running pre script #0",
                      "Error: exit code 1 was produced by the command boom"]) ∧
    (runManifests ⟨false, false, true, false⟩ (fun _ => true) (fun _ => 1) true true "/h" []
        [("A", ⟨[], ["boom"], [], []⟩), ("B", ⟨[], [], [], []⟩)]
      = Outcome.exited 1 []
          ((s!"===== A =====" :: (check_dependencies ⟨false, false, true, false⟩
              (fun _ => true) ⟨[], ["boom"], [], []⟩).out)
            ++ ["pre-scripts:", "    running pre script #0",
                "Error: exit code 1 was produced by the command boom"]) ∧
     exitCode (runManifests ⟨false, false, true, false⟩ (fun _ => true) (fun _ => 1) true true
        "/h" [] [("A", ⟨[], ["boom"], [], []⟩), ("B", ⟨[], [], [], []⟩)]) = 1) :=
  ⟨⟨by decide, by decide⟩,
   c6_strict_pre_failure_aborts_program ⟨false, false, true, false⟩ (fun _ => true)
     (fun _ => 1) true true "/h" [] "A" ⟨[], ["boom"], [], []⟩
     ["pre-scripts:", "    running pre script #0",
      "Error: exit code 1 was produced by the command boom"]
     rfl rfl (by decide) (by decide) [("B", ⟨[], [], [], []⟩)]⟩

/-! ## C7 — dependency-check exit behavior -/

/-- C7 counterexample: with a mandatory dependency unresolvable in install
mode (not check-only), the program finishes with exit code 0 — that
manifest's phases are skipped but no non-zero exit occurs (cue-pine.py has
no exit call on this path, unlike the older install.py); and in
dependency-check-only mode the program does not exit after the check: a
second manifest's dependency check still runs (its header appears) and the
whole run finishes normally. -/
theorem c7_counterexample :
    exitCode (runManifests ⟨false, false, false, false⟩ (fun _ => false) (fun _ => 0)
        true true "/h" [] [("A", ⟨["x"], [], [], [("g", ⟨"D", false, [], []⟩)]⟩)]) = 0 ∧
    runManifests ⟨false, false, false, true⟩ (fun _ => false) (fun _ => 0)
        true true "/h" []
        [("A", ⟨["x"], [], [], [("g", ⟨"D", false, [], []⟩)]⟩),
         ("B", ⟨["x"], [], [], [("g", ⟨"D", false, [], []⟩)]⟩)]
      = Outcome.finished []
          ["===== A =====", "Dependencies check:", "    x not found", "",
           "===== B =====", "Dependencies check:", "    x not found", ""] := by
  refine ⟨by decide, by decide⟩

/-- C7 amended: when a mandatory dependency is unresolvable in install mode
and not in check-only mode, the manifest's phases (pre, installation, post)
are skipped but the program does not exit non-zero: it finishes that
manifest with only the header and dependency report, continues with the
remaining manifests on an unchanged filesystem, and a run consisting of such
manifests exits 0.  In check-only mode there is no exit after the check
either: every manifest is processed (its dependency check runs when
installing), nothing else happens, and the whole run always finishes
normally with the filesystem unchanged. -/
theorem c7_dependency_check_behavior (args : Args) (which : String → Bool)
    (shell : String → Nat) (cloneOk dlOk : Bool) (home : String) (fs : FS)
    (cwd : String) (cfg : Config)
    (hU : args.uninstall = false) (hC : args.check_dependencies = false)
    (hdep : (check_dependencies args which cfg).ok = false) :
    process_config_file args which shell cloneOk dlOk home fs cwd cfg
      = Outcome.finished fs
          (s!"===== {cwd} =====" :: (check_dependencies args which cfg).out) ∧
    (∀ rest, runManifests args which shell cloneOk dlOk home fs ((cwd, cfg) :: rest)
      = prependOut (s!"===== {cwd} =====" :: (check_dependencies args which cfg).out)
          (runManifests args which shell cloneOk dlOk home fs rest)) ∧
    exitCode (runManifests args which shell cloneOk dlOk home fs [(cwd, cfg)]) = 0 ∧
    (∀ (args2 : Args), args2.check_dependencies = true →
      (∀ (fs2 : FS) (cwd2 : String) (cfg2 : Config),
        process_config_file args2 which shell cloneOk dlOk home fs2 cwd2 cfg2
          = Outcome.finished fs2
              (s!"===== {cwd2} =====" ::
                (if args2.uninstall then [] else (check_dependencies args2 which cfg2).out))) ∧
      (∀ (ms : List (String × Config)) (fs2 : FS),
        ∃ out, runManifests args2 which shell cloneOk dlOk home fs2 ms
          = Outcome.finished fs2 out)) := by
  have hpcf : process_config_file args which shell cloneOk dlOk home fs cwd cfg
      = Outcome.finished fs
          (s!"===== {cwd} =====" :: (check_dependencies args which cfg).out) := by
    simp [process_config_file, hU, hC, hdep]
  refine ⟨hpcf, ?_, ?_, ?_⟩
  · intro rest
    simp [runManifests, hpcf]
  · simp [runManifests, hpcf, prependOut, exitCode]
  · intro args2 h2
    have hb1 : ∀ (fs2 : FS) (cwd2 : String) (cfg2 : Config),
        process_config_file args2 which shell cloneOk dlOk home fs2 cwd2 cfg2
          = Outcome.finished fs2
              (s!"===== {cwd2} =====" ::
                (if args2.uninstall then [] else (check_dependencies args2 which cfg2).out)) := by
      intro fs2 cwd2 cfg2
      cases hU2 : args2.uninstall with
      | true => simp [process_config_file, hU2, h2]
      | false => simp [process_config_file, hU2, h2]
    refine ⟨hb1, ?_⟩
    intro ms
    induction ms with
    | nil => exact fun fs2 => ⟨[], rfl⟩
    | cons m rest ih =>
      intro fs2
      obtain ⟨cwd2, cfg2⟩ := m
      obtain ⟨out2, hout2⟩ := ih fs2
      refine ⟨(s!"===== {cwd2} =====" ::
        (if args2.uninstall then [] else (check_dependencies args2 which cfg2).out)) ++ out2, ?_⟩
      simp [runManifests, hb1 fs2 cwd2 cfg2, hout2, prependOut]

/-- C7 witness: the amended theorem at a concrete unresolvable dependency
oracle and a one-group manifest. -/
theorem c7_dependency_check_behavior_witness :
    ((check_dependencies ⟨false, false, false, false⟩ (fun _ => false)
        ⟨["x"], [], [], []⟩).ok = false) ∧
    (process_config_file ⟨false, false, false, false⟩ (fun _ => false) (fun _ => 0)
        true true "/h" [] "A" ⟨["x"], [], [], []⟩
      = Outcome.finished []
          (s!"===== A =====" :: (check_dependencies ⟨false, false, false, false⟩
              (fun _ => false) ⟨["x"], [], [], []⟩).out) ∧
     (∀ rest, runManifests ⟨false, false, false, false⟩ (fun _ => false) (fun _ => 0)
        true true "/h" [] (("A", ⟨["x"], [], [], []⟩) :: rest)
      = prependOut (s!"===== A =====" :: (check_dependencies ⟨false, false, false, false⟩
              (fun _ => false) ⟨["x"], [], [], []⟩).out)
          (runManifests ⟨false, false, false, false⟩ (fun _ => false) (fun _ => 0)
            true true "/h" [] rest)) ∧
     exitCode (runManifests ⟨false, false, false, false⟩ (fun _ => false) (fun _ => 0)
        true true "/h" [] [("A", ⟨["x"], [], [], []⟩)]) = 0 ∧
     (∀ (args2 : Args), args2.check_dependencies = true →
      (∀ (fs2 : FS) (cwd2 : String) (cfg2 : Config),
        process_config_file args2 (fun _ => false) (fun _ => 0) true true "/h" fs2 cwd2 cfg2
          = Outcome.finished fs2
              (s!"===== {cwd2} =====" ::
                (if args2.uninstall then []
                 else (check_dependencies args2 (fun _ => false) cfg2).out))) ∧
      (∀ (ms : List (String × Config)) (fs2 : FS),
        ∃ out, runManifests args2 (fun _ => false) (fun _ => 0) true true "/h" fs2 ms
          = Outcome.finished fs2 out))) :=
  ⟨by decide,
   c7_dependency_check_behavior ⟨false, false, false, false⟩ (fun _ => false) (fun _ => 0)
     true true "/h" [] "A" ⟨["x"], [], [], []⟩ rfl rfl (by decide)⟩
